import Mathlib

/-!
Verification development for the SIMPYBO (BoDH-S) repository.

The repository is a small Flask webhook bot with four Python source files:

* `app.py` — intent routing (`is_greeting`, `detect_language_choice`), the
  in-memory session store, the reply templates and the `/webhook` handler;
* `groq_engine.py` — the `SimpyboAI` engine: prompt construction
  (`_create_prompt`), the API call wrapper (`explain_word`) and the reply
  parser (`_parse_response`);
* `dataset_loader.py` — the `DatasetLoader` corpus loaders with their
  hardcoded fallback lists;
* `test_bot.py` — a manual test script (not modelled).

Python strings are embedded as `List Char`; Python string methods
(`strip`, `lower`, `startswith`, `in`, `replace`, `split`) are embedded as
executable functions below, with ASCII case mapping (all vocabulary used by
the program is ASCII).  Fallible external effects (file reads, the chat
completion API call) are embedded as explicit `Option`/`Except` parameters.
-/

/-! ## Python string primitives -/

/-- Python strings, embedded as lists of characters. -/
abbrev Str := List Char

/-- Python whitespace test used by `str.strip()` and `str.split()`:
space, tab, newline, vertical tab, form feed, carriage return. -/
def pyIsSpace (c : Char) : Bool :=
  decide (c = ' ' ∨ c = '\t' ∨ c = '\n' ∨ c = '\x0b' ∨ c = '\x0c' ∨ c = '\r')

/-- The lowercase ASCII alphabet, used as the lookup table for `pyToLower`. -/
def lowerTable : Str := "abcdefghijklmnopqrstuvwxyz".data

/-- ASCII case folding of one character, as performed by Python
`str.lower()` on the ASCII range (every vocabulary string in the
repository is ASCII). -/
def pyToLower (c : Char) : Char :=
  if 65 ≤ c.toNat ∧ c.toNat ≤ 90 then lowerTable.getD (c.toNat - 65) c else c

/-- Python `str.lower()`. -/
def pyLower (s : Str) : Str := s.map pyToLower

/-- Removal of leading characters satisfying `p` (generic left strip). -/
def lstrip (p : Char → Bool) (s : Str) : Str := s.dropWhile p

/-- Removal of trailing characters satisfying `p` (generic right strip). -/
def rstrip (p : Char → Bool) (s : Str) : Str := (s.reverse.dropWhile p).reverse

/-- Python `str.strip(chars)`: strip characters satisfying `p` from both ends. -/
def pyStripP (p : Char → Bool) (s : Str) : Str := rstrip p (lstrip p s)

/-- Python `str.strip()` (no argument): strip whitespace from both ends. -/
def pyStrip : Str → Str := pyStripP pyIsSpace

/-- Python `str.strip(asterisk)`: strip asterisk characters from both ends. -/
def pyStripStar : Str → Str := pyStripP (fun c => c == '*')

/-- Python `needle in haystack` substring test. -/
def containsSub (pat : Str) : Str → Bool
  | [] => pat.isEmpty
  | c :: t => pat.isPrefixOf (c :: t) || containsSub pat t

/-! ## Lemma kit for the string primitives -/

theorem isPrefixOf_self_append (l r : Str) : l.isPrefixOf (l ++ r) = true := by
  induction l with
  | nil => simp [List.isPrefixOf]
  | cons c t ih => simp [List.isPrefixOf, ih]

theorem containsSub_self_append (pat r : Str) : containsSub pat (pat ++ r) = true := by
  cases pat with
  | nil =>
    cases r with
    | nil => rfl
    | cons c t => simp [containsSub, List.isPrefixOf]
  | cons c t => simp [containsSub, isPrefixOf_self_append]

theorem dw_append (p : Char → Bool) (l₁ l₂ : Str) :
    List.dropWhile p (l₁ ++ l₂) =
      if List.dropWhile p l₁ = [] then List.dropWhile p l₂
      else List.dropWhile p l₁ ++ l₂ := by
  induction l₁ with
  | nil => simp
  | cons c t ih =>
    by_cases h : p c
    · simpa [List.dropWhile_cons, h] using ih
    · simp [List.dropWhile_cons, h]

theorem dw_dw (p : Char → Bool) (l : Str) :
    List.dropWhile p (List.dropWhile p l) = List.dropWhile p l := by
  induction l with
  | nil => simp
  | cons c t ih =>
    by_cases h : p c
    · simpa [List.dropWhile_cons, h] using ih
    · simp [List.dropWhile_cons, h]

theorem dw_map_lower (p : Char → Bool) (l : Str) :
    List.dropWhile p (pyLower l) = pyLower (List.dropWhile (fun c => p (pyToLower c)) l) := by
  induction l with
  | nil => simp [pyLower]
  | cons c t ih =>
    by_cases h : p (pyToLower c)
    · simp only [pyLower, List.map_cons, List.dropWhile_cons, h, if_true]
      simpa only [pyLower] using ih
    · simp [pyLower, List.dropWhile_cons, h]

theorem dw_eq_nil_iff (p : Char → Bool) (l : Str) :
    List.dropWhile p l = [] ↔ ∀ c ∈ l, p c = true := by
  induction l with
  | nil => simp
  | cons c t ih =>
    by_cases h : p c
    · simp [List.dropWhile_cons, h, ih]
    · simp [List.dropWhile_cons, h]

theorem lstrip_cons (p : Char → Bool) (c : Char) (t : Str) :
    lstrip p (c :: t) = if p c then lstrip p t else c :: t := by
  simp [lstrip, List.dropWhile_cons]

theorem rstrip_eq_nil_iff (p : Char → Bool) (l : Str) :
    rstrip p l = [] ↔ ∀ c ∈ l, p c = true := by
  simp [rstrip, List.reverse_eq_nil_iff, dw_eq_nil_iff]

theorem rstrip_cons (p : Char → Bool) (c : Char) (t : Str) :
    rstrip p (c :: t) =
      if p c ∧ rstrip p t = [] then [] else c :: rstrip p t := by
  have hrev : (c :: t).reverse = t.reverse ++ [c] := by simp
  rw [rstrip, hrev, dw_append]
  by_cases ht : List.dropWhile p t.reverse = []
  · have ht' : rstrip p t = [] := by simp [rstrip, ht]
    by_cases hc : p c
    · simp [ht, ht', hc, List.dropWhile_cons]
    · simp [ht, ht', hc, List.dropWhile_cons]
  · have ht' : rstrip p t ≠ [] := by
      simp only [rstrip, ne_eq, List.reverse_eq_nil_iff]
      exact ht
    simp [ht, ht', rstrip]

theorem lstrip_rstrip (p : Char → Bool) (l : Str) :
    lstrip p (rstrip p l) = rstrip p (lstrip p l) := by
  induction l with
  | nil => rfl
  | cons c t ih =>
    rw [rstrip_cons, lstrip_cons]
    by_cases hc : p c
    · by_cases ht : rstrip p t = []
      · have hlt : lstrip p t = [] := by
          rw [lstrip, dw_eq_nil_iff]
          exact (rstrip_eq_nil_iff p t).mp ht
        rw [if_pos ⟨hc, ht⟩, if_pos hc, hlt]
        rfl
      · rw [if_neg (fun h => ht h.2), if_pos hc, lstrip_cons, if_pos hc]
        exact ih
    · rw [if_neg (fun h => hc h.1), if_neg hc, lstrip_cons, if_neg hc, rstrip_cons,
        if_neg (fun h => hc h.1)]

theorem lstrip_lstrip (p : Char → Bool) (l : Str) :
    lstrip p (lstrip p l) = lstrip p l := dw_dw p l

theorem rstrip_rstrip (p : Char → Bool) (l : Str) :
    rstrip p (rstrip p l) = rstrip p l := by
  simp [rstrip, List.reverse_reverse, dw_dw]

theorem stripP_stripP (p : Char → Bool) (s : Str) :
    pyStripP p (pyStripP p s) = pyStripP p s := by
  simp only [pyStripP]
  rw [lstrip_rstrip, rstrip_rstrip, lstrip_lstrip]

theorem stripP_rstrip (p : Char → Bool) (s : Str) :
    pyStripP p (rstrip p s) = pyStripP p s := by
  simp only [pyStripP]
  rw [lstrip_rstrip, rstrip_rstrip]

theorem pyStrip_pyStrip (s : Str) : pyStrip (pyStrip s) = pyStrip s :=
  stripP_stripP pyIsSpace s

theorem getD_mem_cons (l : Str) (i : Nat) (d : Char) : l.getD i d ∈ d :: l := by
  induction l generalizing i with
  | nil => simp [List.getD]
  | cons c t ih =>
    cases i with
    | zero => simp [List.getD]
    | succ n =>
      have h := ih n
      simp only [List.getD, List.getElem?_cons_succ] at h ⊢
      rcases List.mem_cons.mp h with h1 | h1
      · exact List.mem_cons.mpr (Or.inl h1)
      · exact List.mem_cons.mpr (Or.inr (List.mem_cons.mpr (Or.inr h1)))

theorem toNat_le_of_pyIsSpace (c : Char) (h : pyIsSpace c = true) : c.toNat ≤ 32 := by
  simp only [pyIsSpace, decide_eq_true_eq] at h
  rcases h with rfl | rfl | rfl | rfl | rfl | rfl <;> decide

theorem pyIsSpace_pyToLower (c : Char) : pyIsSpace (pyToLower c) = pyIsSpace c := by
  by_cases h : 65 ≤ c.toNat ∧ c.toNat ≤ 90
  · have he : pyToLower c = lowerTable.getD (c.toNat - 65) c := by
      rw [pyToLower, if_pos h]
    have hcf : pyIsSpace c = false := by
      cases hsp : pyIsSpace c with
      | false => rfl
      | true => exact absurd (toNat_le_of_pyIsSpace c hsp) (by omega)
    rcases List.mem_cons.mp (getD_mem_cons lowerTable (c.toNat - 65) c) with he2 | hl
    · rw [he, he2, hcf]
    · have htab : ∀ x ∈ lowerTable, pyIsSpace x = false := by decide
      rw [he, htab _ hl, hcf]
  · have he : pyToLower c = c := by rw [pyToLower, if_neg h]
    rw [he]

theorem pyToLower_pyToLower (c : Char) : pyToLower (pyToLower c) = pyToLower c := by
  by_cases h : 65 ≤ c.toNat ∧ c.toNat ≤ 90
  · have he : pyToLower c = lowerTable.getD (c.toNat - 65) c := by
      rw [pyToLower, if_pos h]
    rcases List.mem_cons.mp (getD_mem_cons lowerTable (c.toNat - 65) c) with he2 | hl
    · rw [he, he2, he, he2]
    · have htab : ∀ x ∈ lowerTable, pyToLower x = x := by decide
      rw [he]
      exact htab _ hl
  · have he : pyToLower c = c := by rw [pyToLower, if_neg h]
    rw [he]
    exact he

theorem pyLower_pyLower (s : Str) : pyLower (pyLower s) = pyLower s := by
  simp only [pyLower, List.map_map]
  exact List.map_congr_left (fun a _ => pyToLower_pyToLower a)

theorem lower_lstrip (s : Str) :
    lstrip pyIsSpace (pyLower s) = pyLower (lstrip pyIsSpace s) := by
  simp only [lstrip, dw_map_lower, pyIsSpace_pyToLower]

theorem lower_rstrip (s : Str) :
    rstrip pyIsSpace (pyLower s) = pyLower (rstrip pyIsSpace s) := by
  simp only [rstrip]
  rw [show (pyLower s).reverse = pyLower s.reverse by
    simp [pyLower, List.map_reverse]]
  rw [dw_map_lower]
  simp only [pyIsSpace_pyToLower]
  simp [pyLower, List.map_reverse]

theorem lower_pyStrip (s : Str) : pyStrip (pyLower s) = pyLower (pyStrip s) := by
  simp only [pyStrip, pyStripP]
  rw [lower_lstrip, lower_rstrip]

theorem lowerStrip_fix (s : Str) :
    pyLower (pyStrip (pyLower (pyStrip s))) = pyLower (pyStrip s) := by
  rw [lower_pyStrip, pyStrip_pyStrip, pyLower_pyLower]

/-! ## Further Python string primitives -/

/-- Fuel-indexed scanner for `pyReplace`.  Each step either copies one
character or consumes one (non-empty) occurrence of `pat`, so `s.length`
steps of fuel always suffice; the fuel-exhausted branch is unreachable for
the fuel supplied by `pyReplace`. -/
def pyReplaceAux (pat rep : Str) : Nat → Str → Str
  | 0, s => s
  | _ + 1, [] => []
  | fuel + 1, c :: rest =>
    if pat ≠ [] ∧ pat.isPrefixOf (c :: rest) then
      rep ++ pyReplaceAux pat rep fuel ((c :: rest).drop pat.length)
    else
      c :: pyReplaceAux pat rep fuel rest

/-- Python `s.replace(pat, rep)`: replace every non-overlapping occurrence
of `pat` from left to right (all call sites in the repository use a
non-empty `pat`). -/
def pyReplace (s pat rep : Str) : Str := pyReplaceAux pat rep s.length s

/-- Fuel-indexed scanner for `pySplitWS`; as with `pyReplaceAux` the fuel
`s.length` always suffices. -/
def pySplitWSAux : Nat → Str → List Str
  | 0, _ => []
  | _ + 1, [] => []
  | fuel + 1, c :: rest =>
    if pyIsSpace c then pySplitWSAux fuel rest
    else (c :: rest.takeWhile (fun x => !pyIsSpace x)) ::
      pySplitWSAux fuel (rest.dropWhile (fun x => !pyIsSpace x))

/-- Python `s.split()` (no argument): split on runs of whitespace,
discarding empty tokens. -/
def pySplitWS (s : Str) : List Str := pySplitWSAux s.length s

/-- Python `s.split(newline)`: split on every newline character, keeping
empty pieces (the result is always non-empty). -/
def splitNl : Str → List Str
  | [] => [[]]
  | c :: rest =>
    if c = '\n' then [] :: splitNl rest
    else
      match splitNl rest with
      | t :: ts => (c :: t) :: ts
      | [] => [[c]]

/-- Python `line.split(colon, 1)[-1]`: everything after the first colon,
or the whole string when it has no colon. -/
def afterFirstColon (l : Str) : Str :=
  if ':' ∈ l then (l.dropWhile (fun c => !(c == ':'))).tail else l

theorem splitNl_ne_nil (s : Str) : splitNl s ≠ [] := by
  induction s with
  | nil => simp [splitNl]
  | cons c rest ih =>
    by_cases h : c = '\n'
    · simp [splitNl, h]
    · simp only [splitNl, if_neg h]
      cases hs : splitNl rest with
      | nil => simp
      | cons t ts => simp

theorem splitNl_no_nl (s : Str) (h : '\n' ∉ s) : splitNl s = [s] := by
  induction s with
  | nil => rfl
  | cons c rest ih =>
    have hc : ¬ c = '\n' := fun he => h (he ▸ List.mem_cons_self c rest)
    have hr : '\n' ∉ rest := fun hm => h (List.mem_cons_of_mem c hm)
    simp only [splitNl, if_neg hc, ih hr]

theorem splitNl_append_nl (x r : Str) (h : '\n' ∉ x) :
    splitNl (x ++ '\n' :: r) = x :: splitNl r := by
  induction x with
  | nil => simp [splitNl]
  | cons c t ih =>
    have hc : ¬ c = '\n' := fun he => h (he ▸ List.mem_cons_self c t)
    have ht : '\n' ∉ t := fun hm => h (List.mem_cons_of_mem c hm)
    simp only [List.cons_append, splitNl, if_neg hc]
    rw [List.append_eq, ih ht]

theorem afterFirstColon_marker (m ra : Str)
    (h : m.dropWhile (fun c => !(c == ':')) = [':']) :
    afterFirstColon (m ++ ra) = ra := by
  have hm : ':' ∈ m := by
    have hsub : m.dropWhile (fun c => !(c == ':')) <:+ m := List.dropWhile_suffix _
    exact hsub.subset (h ▸ List.mem_cons_self ':' [])
  rw [afterFirstColon, if_pos (List.mem_append.mpr (Or.inl hm)), dw_append, h]
  simp

theorem stripP_fixed_append (p : Char → Bool) (m a : Str) (hm : m ≠ [])
    (h1 : lstrip p m = m) (h2 : rstrip p m = m) :
    pyStripP p (m ++ a) = m ++ rstrip p a := by
  have hls : lstrip p (m ++ a) = m ++ a := by
    rw [lstrip, dw_append]
    rw [lstrip] at h1
    rw [h1, if_neg hm]
  rw [pyStripP, hls, rstrip, List.reverse_append, dw_append]
  have hmr : List.dropWhile p m.reverse = m.reverse := by
    have := congrArg List.reverse h2
    rw [rstrip, List.reverse_reverse] at this
    rw [this]
  by_cases ha : List.dropWhile p a.reverse = []
  · have har : rstrip p a = [] := by simp [rstrip, ha]
    rw [if_pos ha, hmr, List.reverse_reverse, har, List.append_nil]
  · rw [if_neg ha, List.reverse_append]
    simp [rstrip]

/-! ## Embedding of app.py -/

/-- Language mode string for english. -/
def englishStr : Str := "english".data

/-- Language mode string for hinglish. -/
def hinglishStr : Str := "hinglish".data

/-- The greeting vocabulary of `is_greeting` in app.py. -/
def greetings : List Str :=
  ["hi".data, "hii".data, "hiii".data, "hiiii".data,
   "hello".data, "helo".data, "hallo".data,
   "hey".data, "heyy".data, "heyyy".data,
   "whatsup".data, "whats up".data, "wassup".data, "watsup".data, "sup".data,
   "namaste".data, "namaskar".data,
   "start".data, "begin".data, "help".data, "menu".data,
   "hola".data, "yo".data]

/-- Embedding of `is_greeting` (app.py): exact match against the greeting
vocabulary, then prefix match. -/
def is_greeting (text : Str) : Bool :=
  if text = [] then false
  else
    let t := pyLower (pyStrip text)
    if t ∈ greetings then true
    else greetings.any (fun g => g.isPrefixOf t)

/-- Exact-match phrases mapping to english in `detect_language_choice`. -/
def english_exact : List Str :=
  ["1".data, "1.".data, "one".data, "mode_english".data,
   "easy english".data, "english".data, "english mode".data]

/-- Exact-match phrases mapping to hinglish in `detect_language_choice`. -/
def hinglish_exact : List Str :=
  ["2".data, "2.".data, "two".data, "mode_hinglish".data,
   "hinglish".data, "hindi".data, "hinglish mode".data]

/-- Containment phrases mapping to english in `detect_language_choice`. -/
def english_keywords : List Str :=
  ["option 1".data, "go with 1".data, "go with option 1".data,
   "switch to option 1".data, "easy english".data, "english only".data]

/-- Containment phrases mapping to hinglish in `detect_language_choice`. -/
def hinglish_keywords : List Str :=
  ["option 2".data, "go with 2".data, "go with option 2".data,
   "switch to option 2".data, "hinglish".data, "hindi english".data,
   "indian users".data]

/-- Embedding of `detect_language_choice` (app.py): exact english set, then
exact hinglish set, then english containment phrases, then hinglish
containment phrases. -/
def detect_language_choice (text : Str) : Option Str :=
  if text = [] then none
  else
    let t := pyLower (pyStrip text)
    if t ∈ english_exact then some englishStr
    else if t ∈ hinglish_exact then some hinglishStr
    else if english_keywords.any (fun kw => containsSub kw t) then some englishStr
    else if hinglish_keywords.any (fun kw => containsSub kw t) then some hinglishStr
    else none

/-- One reply block of the webhook response: text plus a list of
(title, value) suggestion pairs. -/
structure Reply where
  text : Str
  suggestions : List (Str × Str)
deriving DecidableEq

/-- Embedding of `get_mode_selection` (app.py). -/
def get_mode_selection (remind : Bool) : List Reply :=
  [{ text :=
      if remind then
        ("⚠️ Please choose your preferred mode first:\n\n1️⃣ Easy English\n2️⃣ Hinglish for Indian users\n\nTap a button below or type 1 / 2.").data
      else
        ("👋 **Hi! I\x27m BoDH-S!**\n\nI turn tough words into easy explanations with examples.\n\n🌟 Choose how you want answers:\n\n1️⃣ **Easy English** - Simple meaning + example\n2️⃣ **Hinglish** - Hindi + English meaning + example\n\nTap a button below or type 1 / 2.").data,
     suggestions :=
      [(("1️⃣ Easy English").data, ("1").data),
       (("2️⃣ Hinglish for Indian users").data, ("2").data)] }]

/-- Embedding of `mode_selected_reply` (app.py). -/
def mode_selected_reply (language : Str) : List Reply :=
  [{ text :=
      if language = englishStr then
        ("✅ **Mode set to Easy English**.\n\nNow type any difficult word and I\x27ll explain it in simple English with a short example.\n\n📝 For example: algorithm, warranty, refund, cryptocurrency.").data
      else
        ("✅ **Mode set to Hinglish**.\n\nAb se main words ko Hinglish mein simple meaning + example ke saath samjhaunga.\n\n📝 For example: movie, EMI, warranty, COD.").data,
     suggestions :=
      [(("algorithm").data, ("algorithm").data),
       (("warranty").data, ("warranty").data),
       (("COD").data, ("COD").data)] }]

/-- The in-memory session store `user_sessions` of app.py: a map from user
id to the stored `language` value of the per-user dict (`none` when the
user has no entry at all, `some none` when the entry is the reset value
with language `None`). -/
abbrev Sessions := Str → Option (Option Str)

/-- The store with no entries (process start). -/
def emptySessions : Sessions := fun _ => none

/-- Inbound webhook envelope: `user.get("id")` and `message.get("text")`,
each absent (or `None`) modelled as `none`. -/
structure Envelope where
  userId : Option Str
  text : Option Str

/-- The branch the webhook handler takes for a request.  `explainWord`
carries the word and language handed to `engine.explain_word`; all other
branches never invoke the engine. -/
inductive BotAction where
  | offline
  | greeting
  | modeSelect (language : Str)
  | emptyPrompt
  | remind
  | askWord
  | explainWord (word language : Str)
deriving DecidableEq

/-- Embedding of `user_id = user.get("id", "anon")`. -/
def effUserId (env : Envelope) : Str := env.userId.getD ("anon").data

/-- Embedding of `raw_text = (message.get("text") or "").strip()` followed
by `text = raw_text.lower()`. -/
def normText (env : Envelope) : Str := pyLower (pyStrip (env.text.getD []))

/-- Embedding of the STEP-5 filler stripping in the webhook handler. -/
def extract_word (t : Str) : Str :=
  pyStrip (pyReplace (pyReplace (pyReplace t ("what is").data []) ("meaning of").data []) ("explain").data [])

/-- Embedding of the `/webhook` handler of app.py after its engine-presence
check: returns the branch taken and the updated session store.  Branches in
source order: greeting, mode choice, empty text, unset mode reminder, word
extraction and engine call. -/
def webhookStep (sessions : Sessions) (env : Envelope) : BotAction × Sessions :=
  let user_id := effUserId env
  let text := normText env
  if is_greeting text then
    (BotAction.greeting, fun k => if k = user_id then some none else sessions k)
  else
    match detect_language_choice text with
    | some choice =>
      (BotAction.modeSelect choice,
       fun k => if k = user_id then some (some choice) else sessions k)
    | none =>
      if text = [] then (BotAction.emptyPrompt, sessions)
      else
        let language := (sessions user_id).getD none
        if ¬ (language = some englishStr ∨ language = some hinglishStr) then
          (BotAction.remind, sessions)
        else
          let word := extract_word text
          if word = [] then (BotAction.askWord, sessions)
          else (BotAction.explainWord word (language.getD []), sessions)

/-- The full `/webhook` handler including the `if not engine` check. -/
def webhook (engine_ok : Bool) (sessions : Sessions) (env : Envelope) :
    BotAction × Sessions :=
  if engine_ok then webhookStep sessions env else (BotAction.offline, sessions)

/-- The reply rendered for each non-engine branch of the webhook handler
(`explainWord` needs the engine result, rendered by
`format_success`/`format_error`, and is therefore `none` here). -/
def renderAction : BotAction → Option (List Reply)
  | BotAction.offline => some [{ text := ("❌ BoDH-S is currently offline.").data, suggestions := [] }]
  | BotAction.greeting => some (get_mode_selection false)
  | BotAction.modeSelect c => some (mode_selected_reply c)
  | BotAction.emptyPrompt => some (get_mode_selection false)
  | BotAction.remind => some (get_mode_selection true)
  | BotAction.askWord => some [{ text := ("Please type the word you want me to explain.\n\n📝 Example: algorithm, warranty, COD.").data, suggestions := [] }]
  | BotAction.explainWord _ _ => none

/-! ## Embedding of dataset_loader.py -/

/-- One record produced by `load_english_dictionary` (and its fallback):
keys `word`, `definition`, `example` of the Python dict (`example` is
renamed `example_` because `example` is a Lean keyword). -/
structure EngRecord where
  word : Str
  definition : Str
  example_ : Str
deriving DecidableEq

/-- One record produced by `load_hinglish_dataset` (and its fallback):
keys `word`, `input`, `output`, `definition`, `example` of the Python dict. -/
structure HinRecord where
  word : Str
  input : Str
  output : Str
  definition : Str
  example_ : Str
deriving DecidableEq

/-- One line of the hinglish JSON-lines source file, as seen by the loader
after `line.strip()`: a blank line, a line that fails `json.loads`, a JSON
object without a `translation` key, or a translation record carrying the
raw values of `translation.en` and `translation.hi_ng` (a missing key is
the empty string, from `trans.get(..., '')`). -/
inductive HLine where
  | blank
  | malformed
  | noTranslation
  | record (en hing : Str)

namespace DatasetLoader

/-- The `definition.replace(newline, space).strip()` cleaning step of
`load_english_dictionary`. -/
def cleanDef (definition : Str) : Str :=
  pyStrip (pyReplace definition (("\n").data) ((" ").data))

/-- The record built for one `(word, definition)` item of dictionary.json:
lower-cased word, newline-replaced and stripped definition truncated at 150
characters, and the synthesized example sentence. -/
def engRecordOf (word definition : Str) : EngRecord :=
  let clean_def :=
    if 150 < (cleanDef definition).length
    then (cleanDef definition).take 147 ++ ("...").data
    else cleanDef definition
  { word := pyLower word, definition := clean_def,
    example_ := ("Example: The ").data ++ word ++ (" is important.").data }

/-- The `for word, definition in data.items()` loop of
`load_english_dictionary` with its `count >= limit` break. -/
def engLoop (limit : Nat) : List (Str × Str) → Nat → List EngRecord
  | [], _ => []
  | (w, d) :: rest, count =>
    if limit ≤ count then []
    else engRecordOf w d :: engLoop limit rest (count + 1)

/-- Embedding of `_fallback_english` (dataset_loader.py). -/
def _fallback_english : List EngRecord :=
  [{ word := ("algorithm").data, definition := ("Step-by-step procedure to solve a problem").data,
     example_ := ("A recipe is an algorithm").data },
   { word := ("warranty").data, definition := ("Promise to fix product if it breaks").data,
     example_ := ("1 year warranty").data },
   { word := ("refund").data, definition := ("Money returned when product is returned").data,
     example_ := ("Full refund in 7 days").data },
   { word := ("discount").data, definition := ("Reduction in price").data,
     example_ := ("50% discount").data },
   { word := ("invoice").data, definition := ("Bill showing what you bought").data,
     example_ := ("Save the invoice").data }]

/-- Embedding of `load_english_dictionary` (dataset_loader.py).  The
source file dictionary.json is modelled as an ordered association list of
`(word, definition)` pairs; `none` models the `try/except` failure paths
(file missing, or any error raised while reading or JSON-decoding), both
of which return the fallback list. -/
def load_english_dictionary (file : Option (List (Str × Str))) (limit : Nat) :
    List EngRecord :=
  match file with
  | none => _fallback_english
  | some data => engLoop limit data 0

/-- The stop-word list of `load_hinglish_dataset`. -/
def hlStopwords : List Str :=
  [("what").data, ("whats").data, ("when").data, ("where").data, ("does").data,
   ("have").data, ("this").data, ("that").data, ("kind").data, ("name").data]

/-- The representative-word computation of `load_hinglish_dataset`: the
first token of the lower-cased english sentence that is longer than 3
characters and not a stop word, else the literal token `example`. -/
def hlWord (english : Str) : Str :=
  let words := pySplitWS (pyLower english)
  let meaningful := words.filter (fun w => decide (3 < w.length) && !(hlStopwords.contains w))
  match meaningful with
  | [] => ("example").data
  | w :: _ => w

/-- The record built for one accepted translation pair. -/
def hinRecordOf (english hinglish : Str) : HinRecord :=
  { word := hlWord english, input := english, output := hinglish,
    definition := hinglish, example_ := english }

/-- The line loop of `load_hinglish_dataset` with its `count >= limit`
break: blank, malformed and translation-free lines are skipped without
advancing the count; a translation record is emitted (and counted) only
when both stripped sides are non-empty. -/
def hinLoop (limit : Nat) : List HLine → Nat → List HinRecord
  | [], _ => []
  | l :: rest, count =>
    if limit ≤ count then []
    else
      match l with
      | HLine.blank => hinLoop limit rest count
      | HLine.malformed => hinLoop limit rest count
      | HLine.noTranslation => hinLoop limit rest count
      | HLine.record en hing =>
        let english := pyStrip en
        let hinglish := pyStrip hing
        if english ≠ [] ∧ hinglish ≠ [] then
          hinRecordOf english hinglish :: hinLoop limit rest (count + 1)
        else hinLoop limit rest count

/-- Embedding of `_fallback_hinglish` (dataset_loader.py). -/
def _fallback_hinglish : List HinRecord :=
  [{ word := ("movie").data,
     definition := ("Film ka matlab picture hai jo cinema hall mein dikhate hain").data,
     example_ := ("What is the movie name").data,
     input := ("What is movie").data, output := ("Film matlab cinema").data },
   { word := ("COD").data,
     definition := ("Cash on Delivery - jab samaan aaye tab paise do").data,
     example_ := ("COD option choose karo").data,
     input := ("What is COD").data,
     output := ("COD matlab jab delivery aaye tab cash do").data },
   { word := ("EMI").data,
     definition := ("Easy Monthly Installment - har mahine thoda pay karo").data,
     example_ := ("EMI option available hai").data,
     input := ("Explain EMI").data,
     output := ("EMI matlab har mahine thoda thoda pay karo").data },
   { word := ("warranty").data,
     definition := ("Agar kharab ho toh company free theek karegi").data,
     example_ := ("Warranty period kitna hai").data,
     input := ("What is warranty").data,
     output := ("Warranty matlab agar kharab ho toh free repair").data },
   { word := ("discount").data,
     definition := ("Discount matlab kam price - asli price se kam").data,
     example_ := ("Discount kitna hai").data,
     input := ("What is discount").data,
     output := ("Discount matlab price kam ho gaya").data }]

/-- Embedding of `load_hinglish_dataset` (dataset_loader.py).  The source
file is modelled as its list of stripped lines; `none` models the
`try/except` failure paths (file missing, or any error raised while
reading), which return the fallback list. -/
def load_hinglish_dataset (file : Option (List HLine)) (limit : Nat) :
    List HinRecord :=
  match file with
  | none => _fallback_hinglish
  | some lines => hinLoop limit lines 0

end DatasetLoader

/-! ## Embedding of groq_engine.py -/

/-- The field currently being filled while scanning reply lines
(`current_field` in `_parse_response`; `Option` covers its initial `None`). -/
inductive FieldTag where
  | sm
  | ex
  | ff
deriving DecidableEq

/-- The three structured fields extracted by `_parse_response`. -/
structure ParsedFields where
  simple_meaning : Str
  example_ : Str
  full_form : Str
deriving DecidableEq

/-- The dictionary returned by `explain_word`: the success shape carries
`word`, `language` and the three parsed fields; the failure shape carries
`word` and the stringified exception. -/
inductive ExplainResult where
  | success (word language simple_meaning example_ full_form : Str)
  | failure (word err : Str)
deriving DecidableEq

/-- The engine state loaded at construction: the cached english and
hinglish example lists (`self.examples`).  Records built by the loaders
always carry every key read by `_create_prompt`, so the Python
`dict.get` calls with defaults reduce to plain field access. -/
structure Engine where
  english : List EngRecord
  hinglish : List HinRecord

namespace SimpyboAI

/-- Field read of the `result` dict by `current_field` name. -/
def getField (r : ParsedFields) : FieldTag → Str
  | FieldTag.sm => r.simple_meaning
  | FieldTag.ex => r.example_
  | FieldTag.ff => r.full_form

/-- Field write of the `result` dict by `current_field` name. -/
def setField (r : ParsedFields) : FieldTag → Str → ParsedFields
  | FieldTag.sm, v => { r with simple_meaning := v }
  | FieldTag.ex, v => { r with example_ := v }
  | FieldTag.ff, v => { r with full_form := v }

/-- The continuation-line append of `_parse_response`:
`result[current_field] += " " + line` when the field already has content,
else `result[current_field] = line`. -/
def contAppend (r : ParsedFields) (f : FieldTag) (line : Str) : ParsedFields :=
  if getField r f ≠ [] then setField r f (getField r f ++ ' ' :: line)
  else setField r f line

/-- One iteration of the `for line in lines` loop of `_parse_response`. -/
def parseStep (st : ParsedFields × Option FieldTag) (rawLine : Str) :
    ParsedFields × Option FieldTag :=
  let line := pyStrip rawLine
  if line = [] then st
  else
    let lower := pyLower line
    if containsSub (("simple meaning:").data) lower then
      let content := pyStrip (afterFirstColon line)
      ({ st.1 with simple_meaning := if content ≠ [] then content else st.1.simple_meaning },
       some FieldTag.sm)
    else if containsSub (("example:").data) lower then
      let content := pyStrip (afterFirstColon line)
      ({ st.1 with example_ := if content ≠ [] then content else st.1.example_ },
       some FieldTag.ex)
    else if containsSub (("full form:").data) lower then
      let content := pyStrip (afterFirstColon line)
      ({ st.1 with full_form :=
          if content ≠ [] ∧ pyLower content ≠ ("n/a").data then content
          else st.1.full_form },
       some FieldTag.ff)
    else
      match st.2 with
      | none => st
      | some f =>
        if (("Simple Meaning").data).isPrefixOf line
            ∨ (("Example").data).isPrefixOf line
            ∨ (("Full Form").data).isPrefixOf line then st
        else (contAppend st.1 f line, st.2)

/-- The final `result[key].strip().strip(asterisk).strip()` cleanup of
`_parse_response`. -/
def cleanupField (s : Str) : Str := pyStrip (pyStripStar (pyStrip s))

/-- The tail of `_parse_response` after the line loop: the per-field
cleanup followed by the `text[:200]` fallback when no simple meaning was
found. -/
def finalize (text : Str) (r0 : ParsedFields) : ParsedFields :=
  let r : ParsedFields :=
    ⟨cleanupField r0.simple_meaning, cleanupField r0.example_,
     cleanupField r0.full_form⟩
  if r.simple_meaning = [] then { r with simple_meaning := pyStrip (text.take 200) }
  else r

/-- Embedding of `SimpyboAI._parse_response` (groq_engine.py): split the
reply on newlines, scan the lines for the three markers, clean every
field, and fall back to the first 200 characters of the raw text when no
simple meaning was found. -/
def _parse_response (text : Str) : ParsedFields :=
  finalize text ((splitNl text).foldl parseStep (⟨[], [], []⟩, none)).1

/-- The numbered english example blocks of `_create_prompt`
(`enumerate(examples, 1)`). -/
def engBlocks : Nat → List EngRecord → Str
  | _, [] => []
  | i, e :: rest =>
    (Nat.repr i).data ++ (". Word: ").data ++ e.word
      ++ ("\n   Meaning: ").data ++ e.definition
      ++ ("\n   Example: ").data ++ e.example_ ++ ("\n\n").data
      ++ engBlocks (i + 1) rest

/-- The numbered hinglish example blocks of `_create_prompt`. -/
def hinBlocks : Nat → List HinRecord → Str
  | _, [] => []
  | i, e :: rest =>
    (Nat.repr i).data ++ (". Word: ").data ++ e.word
      ++ ("\n   Meaning: ").data ++ e.definition
      ++ ("\n   Example: ").data ++ e.example_ ++ ("\n\n").data
      ++ hinBlocks (i + 1) rest

/-- Embedding of `SimpyboAI._create_prompt` (groq_engine.py).  The source
indexes `self.examples[language]` with `language` in
`{english, hinglish}`; the Python `else` branch covers hinglish. -/
def _create_prompt (e : Engine) (word language : Str) : Str :=
  if language = englishStr then
    ("You are BoDH-S. Explain words in VERY simple English.\n\nHere are examples from dictionary.json:\n\n").data
      ++ engBlocks 1 (e.english.take 3)
      ++ ("Now explain this word in the SAME style:\nWord: ").data ++ word
      ++ ("\n\nFormat:\nSimple Meaning: [one clear sentence, max ~15 words]\nExample: [one practical real-life example]\nFull Form: [if abbreviation, else N/A]").data
  else
    ("You are BoDH-S. Explain words in Hinglish (Hindi + English mix) for Indian users.\n\nHere are examples from hinglish_upload_v1.json:\n\n").data
      ++ hinBlocks 1 (e.hinglish.take 3)
      ++ ("Now explain this word in the SAME style:\nWord: ").data ++ word
      ++ ("\n\nFormat:\nSimple Meaning: [1 short sentence in Hinglish]\nExample: [1 Indian-style example sentence]\nFull Form: [agar abbreviation hai toh full form, warna N/A]").data

/-- Embedding of `SimpyboAI.explain_word` (groq_engine.py).  The blocking
`chat.completions.create` call plus the `response.choices[0].message.content`
extraction is modelled by `api`, which either returns the reply text or
the stringified exception caught by the `except` clause; the body of the
`try` block after the call (`_parse_response` and dict construction) is
total, so the embedding raises nothing either way. -/
def explain_word (e : Engine) (api : Str → Except Str Str) (word language : Str) :
    ExplainResult :=
  let prompt := _create_prompt e word language
  match api prompt with
  | Except.error err => ExplainResult.failure word err
  | Except.ok reply =>
    let parsed := _parse_response reply
    ExplainResult.success word language parsed.simple_meaning parsed.example_
      parsed.full_form

end SimpyboAI

/-! ## Claim theorems -/

theorem detect_values (t c : Str) (h : detect_language_choice t = some c) :
    c = englishStr ∨ c = hinglishStr := by
  simp only [detect_language_choice] at h
  by_cases h0 : t = []
  · rw [if_pos h0] at h
    cases h
  · rw [if_neg h0] at h
    split_ifs at h <;> simp_all

/-- C2: for every message whose normalized text is in the greeting
vocabulary (exact or prefix match, i.e. `is_greeting` holds), and every
prior session state, the webhook takes the greeting branch, forces the
session language of the requesting user to the unset value `None`, and
responds with the (non-reminder) mode-selection prompt. -/
theorem claimC2 (sessions : Sessions) (env : Envelope)
    (h : is_greeting (normText env) = true) :
    (webhook true sessions env).1 = BotAction.greeting
    ∧ (webhook true sessions env).2 (effUserId env) = some none
    ∧ renderAction (webhook true sessions env).1 = some (get_mode_selection false) := by
  have hs : webhook true sessions env =
      (BotAction.greeting,
       fun k => if k = effUserId env then some none else sessions k) := by
    simp only [webhook, webhookStep, if_true]
    rw [h]
    simp
  rw [hs]
  exact ⟨rfl, by simp, rfl⟩

/-- Witness for C2 at the concrete message text hi with an empty store. -/
theorem claimC2_witness :
    (webhook true emptySessions ⟨none, some (("hi").data)⟩).1 = BotAction.greeting
    ∧ (webhook true emptySessions ⟨none, some (("hi").data)⟩).2
        (effUserId ⟨none, some (("hi").data)⟩) = some none
    ∧ renderAction (webhook true emptySessions ⟨none, some (("hi").data)⟩).1
        = some (get_mode_selection false) :=
  claimC2 emptySessions ⟨none, some (("hi").data)⟩ (by decide)

/-- C5: for a user whose stored session language is unset (no entry, or an
entry with language `None`), a non-empty message that is neither a
greeting nor a mode selection yields the reminder variant of the
mode-selection prompt, leaves the session store untouched, and takes the
`remind` branch (so the explanation engine is never invoked). -/
theorem claimC5 (sessions : Sessions) (env : Envelope)
    (hg : is_greeting (normText env) = false)
    (hd : detect_language_choice (normText env) = none)
    (hne : normText env ≠ [])
    (hs : sessions (effUserId env) = none ∨ sessions (effUserId env) = some none) :
    webhook true sessions env = (BotAction.remind, sessions)
    ∧ renderAction (webhook true sessions env).1 = some (get_mode_selection true) := by
  have hlang : (sessions (effUserId env)).getD none = none := by
    rcases hs with h | h <;> rw [h] <;> rfl
  have hres : webhook true sessions env = (BotAction.remind, sessions) := by
    simp only [webhook, webhookStep, if_true]
    rw [hg, hd, hlang]
    simp [hne, englishStr, hinglishStr]
  rw [hres]
  exact ⟨rfl, rfl⟩

/-- Witness for C5 at the concrete message algorithm with an empty store. -/
theorem claimC5_witness :
    webhook true emptySessions ⟨none, some (("algorithm").data)⟩
      = (BotAction.remind, emptySessions)
    ∧ renderAction (webhook true emptySessions ⟨none, some (("algorithm").data)⟩).1
        = some (get_mode_selection true) :=
  claimC5 emptySessions ⟨none, some (("algorithm").data)⟩ (by decide) (by decide)
    (by decide) (Or.inl rfl)

/-- C6: two consecutive requests of the same user that both reach the
mode-selection branch with the same detected choice produce the same
confirmation reply both times and leave the stored session language equal
to that choice after each request. -/
theorem claimC6 (sessions : Sessions) (env1 env2 : Envelope) (c : Str)
    (hu : effUserId env2 = effUserId env1)
    (hg1 : is_greeting (normText env1) = false)
    (hg2 : is_greeting (normText env2) = false)
    (hd1 : detect_language_choice (normText env1) = some c)
    (hd2 : detect_language_choice (normText env2) = some c) :
    (webhook true sessions env1).1 = BotAction.modeSelect c
    ∧ (webhook true (webhook true sessions env1).2 env2).1 = BotAction.modeSelect c
    ∧ renderAction (webhook true sessions env1).1
        = renderAction (webhook true (webhook true sessions env1).2 env2).1
    ∧ (webhook true sessions env1).2 (effUserId env1) = some (some c)
    ∧ (webhook true (webhook true sessions env1).2 env2).2 (effUserId env1)
        = some (some c) := by
  have hstep : ∀ (s : Sessions) (env : Envelope),
      is_greeting (normText env) = false →
      detect_language_choice (normText env) = some c →
      webhook true s env =
        (BotAction.modeSelect c,
         fun k => if k = effUserId env then some (some c) else s k) := by
    intro s env hg hd
    simp only [webhook, webhookStep, if_true]
    rw [hg, hd]
    simp
  have h1 := hstep sessions env1 hg1 hd1
  have h2 := hstep (webhook true sessions env1).2 env2 hg2 hd2
  rw [h1] at h2 ⊢
  rw [h2]
  refine ⟨rfl, rfl, rfl, by simp, ?_⟩
  simp [hu]

/-- Witness for C6: the user sends the message 1 twice from an empty
store. -/
theorem claimC6_witness :
    (webhook true emptySessions ⟨none, some (("1").data)⟩).1
      = BotAction.modeSelect englishStr
    ∧ (webhook true (webhook true emptySessions ⟨none, some (("1").data)⟩).2
        ⟨none, some (("1").data)⟩).1 = BotAction.modeSelect englishStr
    ∧ renderAction (webhook true emptySessions ⟨none, some (("1").data)⟩).1
        = renderAction (webhook true
            (webhook true emptySessions ⟨none, some (("1").data)⟩).2
            ⟨none, some (("1").data)⟩).1
    ∧ (webhook true emptySessions ⟨none, some (("1").data)⟩).2
        (effUserId ⟨none, some (("1").data)⟩) = some (some englishStr)
    ∧ (webhook true (webhook true emptySessions ⟨none, some (("1").data)⟩).2
        ⟨none, some (("1").data)⟩).2 (effUserId ⟨none, some (("1").data)⟩)
        = some (some englishStr) :=
  claimC6 emptySessions ⟨none, some (("1").data)⟩ ⟨none, some (("1").data)⟩
    englishStr rfl (by decide) (by decide) (by decide) (by decide)

/-- C8: when a corpus source file is missing, or reading it raises (both
modelled by the `none` input), each loader returns exactly its hardcoded
5-record fallback list, for every value of the limit parameter. -/
theorem claimC8 (limit : Nat) :
    DatasetLoader.load_english_dictionary none limit = DatasetLoader._fallback_english
    ∧ DatasetLoader._fallback_english.length = 5
    ∧ DatasetLoader.load_hinglish_dataset none limit = DatasetLoader._fallback_hinglish
    ∧ DatasetLoader._fallback_hinglish.length = 5 :=
  ⟨rfl, rfl, rfl, rfl⟩

/-- C10: every request without a user id is keyed under the shared session
id anon: a mode selection from one id-less request stores the language
under anon, and a following id-less explanation request reads exactly that
stored language when it invokes the engine. -/
theorem claimC10 (sessions : Sessions) (env1 env2 : Envelope) (c : Str)
    (h1 : env1.userId = none) (h2 : env2.userId = none)
    (hg1 : is_greeting (normText env1) = false)
    (hd1 : detect_language_choice (normText env1) = some c)
    (hg2 : is_greeting (normText env2) = false)
    (hd2 : detect_language_choice (normText env2) = none)
    (hne2 : normText env2 ≠ [])
    (hw2 : extract_word (normText env2) ≠ []) :
    effUserId env1 = ("anon").data
    ∧ effUserId env2 = ("anon").data
    ∧ (webhook true sessions env1).2 (("anon").data) = some (some c)
    ∧ (webhook true (webhook true sessions env1).2 env2).1
        = BotAction.explainWord (extract_word (normText env2)) c := by
  have hu1 : effUserId env1 = ("anon").data := by rw [effUserId, h1]; rfl
  have hu2 : effUserId env2 = ("anon").data := by rw [effUserId, h2]; rfl
  have hs1 : webhook true sessions env1 =
      (BotAction.modeSelect c,
       fun k => if k = effUserId env1 then some (some c) else sessions k) := by
    simp only [webhook, webhookStep, if_true]
    rw [hg1, hd1]
    simp
  have hcval := detect_values _ _ hd1
  have heq : effUserId env2 = effUserId env1 := hu2.trans hu1.symm
  refine ⟨hu1, hu2, ?_, ?_⟩
  · rw [hs1, hu1]
    simp
  · rw [hs1]
    simp only [webhook, webhookStep, if_true]
    rw [hg2, hd2]
    simp only [Bool.false_eq_true, if_false, heq, if_pos rfl, Option.getD_some]
    rcases hcval with h | h <;>
      simp [hne2, hw2, h, englishStr, hinglishStr]

/-- Witness for C10: two id-less requests, first selecting mode 2, then
asking for the word algorithm. -/
theorem claimC10_witness :
    effUserId ⟨none, some (("2").data)⟩ = ("anon").data
    ∧ effUserId ⟨none, some (("algorithm").data)⟩ = ("anon").data
    ∧ (webhook true emptySessions ⟨none, some (("2").data)⟩).2 (("anon").data)
        = some (some hinglishStr)
    ∧ (webhook true (webhook true emptySessions ⟨none, some (("2").data)⟩).2
        ⟨none, some (("algorithm").data)⟩).1
        = BotAction.explainWord (extract_word (normText ⟨none, some (("algorithm").data)⟩))
            hinglishStr :=
  claimC10 emptySessions ⟨none, some (("2").data)⟩ ⟨none, some (("algorithm").data)⟩
    hinglishStr rfl rfl (by decide) (by decide) (by decide) (by decide) (by decide)
    (by decide)

/-- C4: for every word, every language in the two supported modes, every
engine state and every behavior of the completion API, a failing API call
(any exception, carried as the stringified error) makes `explain_word`
return the failure dictionary with the original word and the error string,
and a successful call makes it return the success dictionary with the
word, the language and the three parsed fields; the embedding is total, so
neither path raises. -/
theorem claimC4 (e : Engine) (api : Str → Except Str Str) (word language : Str)
    (_hl : language = englishStr ∨ language = hinglishStr) :
    (∀ err, api (SimpyboAI._create_prompt e word language) = Except.error err →
      SimpyboAI.explain_word e api word language = ExplainResult.failure word err)
    ∧ (∀ reply, api (SimpyboAI._create_prompt e word language) = Except.ok reply →
      SimpyboAI.explain_word e api word language =
        ExplainResult.success word language
          (SimpyboAI._parse_response reply).simple_meaning
          (SimpyboAI._parse_response reply).example_
          (SimpyboAI._parse_response reply).full_form) := by
  constructor
  · intro err h
    simp only [SimpyboAI.explain_word]
    rw [h]
  · intro reply h
    simp only [SimpyboAI.explain_word]
    rw [h]

/-- Witness for C4: an always-failing API and an always-succeeding API at
the word algorithm in english mode. -/
theorem claimC4_witness :
    SimpyboAI.explain_word ⟨[], []⟩ (fun _ => Except.error (("boom").data))
        (("algorithm").data) englishStr
      = ExplainResult.failure (("algorithm").data) (("boom").data)
    ∧ SimpyboAI.explain_word ⟨[], []⟩
        (fun _ => Except.ok (("Simple Meaning: steps\nExample: a recipe\nFull Form: N/A").data))
        (("algorithm").data) englishStr
      = ExplainResult.success (("algorithm").data) englishStr
          (("steps").data) (("a recipe").data) [] := by
  constructor
  · exact (claimC4 ⟨[], []⟩ (fun _ => Except.error (("boom").data)) (("algorithm").data)
      englishStr (Or.inl rfl)).1 (("boom").data) rfl
  · have h := (claimC4 ⟨[], []⟩
      (fun _ => Except.ok (("Simple Meaning: steps\nExample: a recipe\nFull Form: N/A").data))
      (("algorithm").data) englishStr (Or.inl rfl)).2
      (("Simple Meaning: steps\nExample: a recipe\nFull Form: N/A").data) rfl
    rw [h]
    decide

theorem engLoop_eq_take_map (limit : Nat) (data : List (Str × Str)) (count : Nat) :
    DatasetLoader.engLoop limit data count
      = (data.take (limit - count)).map (fun p => DatasetLoader.engRecordOf p.1 p.2) := by
  induction data generalizing count with
  | nil => simp [DatasetLoader.engLoop]
  | cons pair rest ih =>
    obtain ⟨w, d⟩ := pair
    by_cases h : limit ≤ count
    · rw [show limit - count = 0 from by omega]
      simp [DatasetLoader.engLoop, h]
    · rw [show limit - count = (limit - (count + 1)) + 1 from by omega]
      simp [DatasetLoader.engLoop, h, ih (count + 1)]

/-- C7: for every source dictionary and limit, `load_english_dictionary`
emits exactly one record per source entry in source order, stopping after
`limit` records; each record's word is the source word lower-cased, the
definition is the newline-replaced and stripped source definition, kept
unchanged when it has at most 150 characters and truncated to its first
147 characters plus an ellipsis otherwise, and every emitted definition
has length at most 150. -/
theorem claimC7 (data : List (Str × Str)) (limit : Nat) :
    DatasetLoader.load_english_dictionary (some data) limit
      = (data.take limit).map (fun p => DatasetLoader.engRecordOf p.1 p.2)
    ∧ (∀ r ∈ DatasetLoader.load_english_dictionary (some data) limit,
        r.definition.length ≤ 150)
    ∧ (∀ w d, (DatasetLoader.engRecordOf w d).word = pyLower w)
    ∧ (∀ w d, (DatasetLoader.cleanDef d).length ≤ 150 →
        (DatasetLoader.engRecordOf w d).definition = DatasetLoader.cleanDef d)
    ∧ (∀ w d, 150 < (DatasetLoader.cleanDef d).length →
        (DatasetLoader.engRecordOf w d).definition
          = (DatasetLoader.cleanDef d).take 147 ++ ("...").data) := by
  have hdef : ∀ w d, (DatasetLoader.engRecordOf w d).definition.length ≤ 150 := by
    intro w d
    simp only [DatasetLoader.engRecordOf]
    by_cases h : 150 < (DatasetLoader.cleanDef d).length
    · rw [if_pos h]
      simp only [List.length_append, List.length_take, List.length_cons, List.length_nil]
      omega
    · rw [if_neg h]
      omega
  have heq : DatasetLoader.load_english_dictionary (some data) limit
      = (data.take limit).map (fun p => DatasetLoader.engRecordOf p.1 p.2) := by
    rw [DatasetLoader.load_english_dictionary]
    rw [engLoop_eq_take_map limit data 0, Nat.sub_zero]
  refine ⟨heq, ?_, fun w d => rfl, ?_, ?_⟩
  · intro r hr
    rw [heq] at hr
    obtain ⟨p, _, hp⟩ := List.mem_map.mp hr
    rw [← hp]
    exact hdef p.1 p.2
  · intro w d h
    simp only [DatasetLoader.engRecordOf]
    rw [if_neg (by omega)]
  · intro w d h
    simp only [DatasetLoader.engRecordOf]
    rw [if_pos h]

/-- Witness for C7 at a two-entry source whose second definition has 160
characters, with limit 1: only the first entry is emitted, and a record
built from the long definition is truncated to length 150. -/
theorem claimC7_witness :
    DatasetLoader.load_english_dictionary
        (some [((("Apple").data), (" a fruit\nred ").data),
               ((("Pear").data), List.replicate 160 'x')]) 1
      = [DatasetLoader.engRecordOf (("Apple").data) ((" a fruit\nred ").data)]
    ∧ (DatasetLoader.engRecordOf (("Pear").data)
        (List.replicate 160 'x')).definition.length ≤ 150
    ∧ (DatasetLoader.engRecordOf (("Apple").data) ((" a fruit\nred ").data)).word
        = pyLower (("Apple").data) := by
  have h := claimC7 [((("Apple").data), (" a fruit\nred ").data),
    ((("Pear").data), List.replicate 160 'x')] 1
  refine ⟨by rw [h.1]; rfl, ?_, h.2.2.1 (("Apple").data) ((" a fruit\nred ").data)⟩
  have h2 := claimC7 [((("Pear").data), List.replicate 160 'x')] 5
  exact h2.2.1 _ (by rw [h2.1]; simp)

theorem filter_headD_eq_findD (p : Str → Bool) (l : List Str) (d : Str) :
    (match l.filter p with
     | [] => d
     | w :: _ => w) = (l.find? p).getD d := by
  induction l with
  | nil => rfl
  | cons c t ih =>
    by_cases h : p c
    · simp [List.filter_cons, List.find?_cons, h]
    · simp only [List.filter_cons, List.find?_cons, h, if_false]
      simpa [h] using ih

theorem hlWord_eq_find (e : Str) :
    DatasetLoader.hlWord e
      = ((pySplitWS (pyLower e)).find?
          (fun w => decide (3 < w.length) && !(DatasetLoader.hlStopwords.contains w))).getD
          (("example").data) := by
  rw [DatasetLoader.hlWord]
  exact filter_headD_eq_findD _ _ _

theorem hinLoop_mem (limit : Nat) (lines : List HLine) (count : Nat) :
    ∀ r ∈ DatasetLoader.hinLoop limit lines count,
      r.input ≠ [] ∧ r.output ≠ [] ∧ r.word = DatasetLoader.hlWord r.input := by
  induction lines generalizing count with
  | nil => simp [DatasetLoader.hinLoop]
  | cons l rest ih =>
    intro r hr
    by_cases h : limit ≤ count
    · simp [DatasetLoader.hinLoop, h] at hr
    · cases l with
      | blank =>
        rw [DatasetLoader.hinLoop, if_neg h] at hr
        exact ih count r hr
      | malformed =>
        rw [DatasetLoader.hinLoop, if_neg h] at hr
        exact ih count r hr
      | noTranslation =>
        rw [DatasetLoader.hinLoop, if_neg h] at hr
        exact ih count r hr
      | record en hing =>
        rw [DatasetLoader.hinLoop, if_neg h] at hr
        by_cases hne : pyStrip en ≠ [] ∧ pyStrip hing ≠ []
        · rw [if_pos hne] at hr
          rcases List.mem_cons.mp hr with he | hm
          · rw [he]
            exact ⟨hne.1, hne.2, rfl⟩
          · exact ih (count + 1) r hm
        · rw [if_neg hne] at hr
          exact ih count r hr

/-- C9: every record emitted by `load_hinglish_dataset` has non-empty
stored sides (a translation pair is accepted only when both sides are
non-empty after stripping), and its representative word is the first
whitespace-separated token of the lower-cased english sentence whose
length exceeds 3 and which is not in the fixed stop-word set, or the
literal token example when no token qualifies. -/
theorem claimC9 (lines : List HLine) (limit : Nat) :
    ∀ r ∈ DatasetLoader.load_hinglish_dataset (some lines) limit,
      r.input ≠ [] ∧ r.output ≠ []
      ∧ r.word = ((pySplitWS (pyLower r.input)).find?
          (fun w => decide (3 < w.length) && !(DatasetLoader.hlStopwords.contains w))).getD
          (("example").data) := by
  intro r hr
  have h := hinLoop_mem limit lines 0 r hr
  exact ⟨h.1, h.2.1, by rw [h.2.2, hlWord_eq_find]⟩

/-- Witness for C9 at a one-line source whose english side is the sentence
What is algorithm: the first token longer than 3 characters outside the
stop-word set is algorithm. -/
theorem claimC9_witness :
    (⟨("algorithm").data, ("What is algorithm").data, ("algorithm ka matlab").data,
      ("algorithm ka matlab").data, ("What is algorithm").data⟩ : HinRecord).input ≠ []
    ∧ (⟨("algorithm").data, ("What is algorithm").data, ("algorithm ka matlab").data,
        ("algorithm ka matlab").data, ("What is algorithm").data⟩ : HinRecord).output ≠ []
    ∧ (⟨("algorithm").data, ("What is algorithm").data, ("algorithm ka matlab").data,
        ("algorithm ka matlab").data, ("What is algorithm").data⟩ : HinRecord).word
      = ((pySplitWS (pyLower (⟨("algorithm").data, ("What is algorithm").data,
            ("algorithm ka matlab").data, ("algorithm ka matlab").data,
            ("What is algorithm").data⟩ : HinRecord).input)).find?
          (fun w => decide (3 < w.length) && !(DatasetLoader.hlStopwords.contains w))).getD
          (("example").data) :=
  claimC9 [HLine.record ((" What is algorithm ").data) (("algorithm ka matlab ").data)] 5
    ⟨("algorithm").data, ("What is algorithm").data, ("algorithm ka matlab").data,
     ("algorithm ka matlab").data, ("What is algorithm").data⟩ (by decide)

theorem webhook_greeting_eq (sessions : Sessions) (env : Envelope)
    (hg : is_greeting (normText env) = true) :
    webhook true sessions env =
      (BotAction.greeting,
       fun k => if k = effUserId env then some none else sessions k) := by
  simp only [webhook, webhookStep, if_true]
  rw [hg]
  simp

theorem webhook_mode_eq (sessions : Sessions) (env : Envelope) (c : Str)
    (hg : is_greeting (normText env) = false)
    (hd : detect_language_choice (normText env) = some c) :
    webhook true sessions env =
      (BotAction.modeSelect c,
       fun k => if k = effUserId env then some (some c) else sessions k) := by
  simp only [webhook, webhookStep, if_true]
  rw [hg, hd]
  simp

theorem detect_english_contains (t : Str)
    (hn : pyLower (pyStrip t) = t)
    (h : containsSub (("option 1").data) t = true
      ∨ containsSub (("easy english").data) t = true) :
    detect_language_choice t = some englishStr := by
  have hne : t ≠ [] := by
    rintro rfl
    rcases h with hc | hc <;> exact absurd hc (by decide)
  simp only [detect_language_choice]
  rw [if_neg hne, hn]
  by_cases h1 : t ∈ english_exact
  · rw [if_pos h1]
  · rw [if_neg h1]
    have h2 : t ∉ hinglish_exact := by
      intro hm
      simp only [hinglish_exact, List.mem_cons, List.not_mem_nil, or_false] at hm
      rcases hm with rfl | rfl | rfl | rfl | rfl | rfl | rfl <;>
        rcases h with hc | hc <;> exact absurd hc (by decide)
    rw [if_neg h2]
    have h3 : (english_keywords.any fun kw => containsSub kw t) = true := by
      rcases h with hc | hc
      · exact List.any_eq_true.mpr ⟨("option 1").data, by decide, hc⟩
      · exact List.any_eq_true.mpr ⟨("easy english").data, by decide, hc⟩
    rw [h3]
    simp

theorem detect_hinglish_contains (t : Str)
    (hn : pyLower (pyStrip t) = t)
    (h : containsSub (("option 2").data) t = true)
    (hk : ∀ kw ∈ english_keywords, containsSub kw t = false) :
    detect_language_choice t = some hinglishStr := by
  have hne : t ≠ [] := by
    rintro rfl
    exact absurd h (by decide)
  simp only [detect_language_choice]
  rw [if_neg hne, hn]
  have h1 : t ∉ english_exact := by
    intro hm
    simp only [english_exact, List.mem_cons, List.not_mem_nil, or_false] at hm
    rcases hm with rfl | rfl | rfl | rfl | rfl | rfl | rfl <;> exact absurd h (by decide)
  rw [if_neg h1]
  by_cases h2 : t ∈ hinglish_exact
  · rw [if_pos h2]
  · rw [if_neg h2]
    have h3 : (english_keywords.any fun kw => containsSub kw t) = false := by
      rw [List.any_eq_false]
      intro kw hkw
      rw [hk kw hkw]
      simp
    have h4 : (hinglish_keywords.any fun kw => containsSub kw t) = true :=
      List.any_eq_true.mpr ⟨("option 2").data, by decide, h⟩
    rw [h3, h4]
    simp

/-- Counterexample for C1 as stated: the message hinglish (exactly one of
the phrases the claim lists as a hinglish mode selection) is matched by
the greeting rule first, because hinglish starts with hi; the webhook
takes the greeting branch and resets the stored language instead of
setting it to hinglish.  Likewise a message containing option 2 together
with an english keyword selects english, and a message containing
option 1 but starting with a greeting resets instead of selecting. -/
theorem claimC1_counterexample :
    (webhook true emptySessions ⟨none, some (("hinglish").data)⟩).1 = BotAction.greeting
    ∧ (webhook true emptySessions ⟨none, some (("hinglish").data)⟩).2 (("anon").data)
        = some none
    ∧ BotAction.greeting ≠ BotAction.modeSelect hinglishStr
    ∧ (webhook true emptySessions ⟨none, some (("easy english option 2").data)⟩).1
        = BotAction.modeSelect englishStr
    ∧ (webhook true emptySessions ⟨none, some (("hi, option 1").data)⟩).1
        = BotAction.greeting := by
  refine ⟨by decide, by decide, by decide, by decide, by decide⟩

/-- C1 amended: restricted to messages the greeting rule does not match,
the router classifies exactly as the claim states: normalized text equal
to 1 or english, or containing option 1 or easy english, selects english
mode and stores it; normalized text equal to 2, or containing option 2
while containing no english keyword phrase, selects hinglish mode and
stores it.  The exact messages hinglish and hindi are instead matched by
the greeting rule (both start with hi) and reset the stored language. -/
theorem claimC1_amended (sessions : Sessions) (env : Envelope) :
    ((normText env = ("1").data ∨ normText env = ("english").data) →
      (webhook true sessions env).1 = BotAction.modeSelect englishStr
      ∧ (webhook true sessions env).2 (effUserId env) = some (some englishStr))
    ∧ (is_greeting (normText env) = false →
        (containsSub (("option 1").data) (normText env) = true
          ∨ containsSub (("easy english").data) (normText env) = true) →
      (webhook true sessions env).1 = BotAction.modeSelect englishStr
      ∧ (webhook true sessions env).2 (effUserId env) = some (some englishStr))
    ∧ (normText env = ("2").data →
      (webhook true sessions env).1 = BotAction.modeSelect hinglishStr
      ∧ (webhook true sessions env).2 (effUserId env) = some (some hinglishStr))
    ∧ (is_greeting (normText env) = false →
        containsSub (("option 2").data) (normText env) = true →
        (∀ kw ∈ english_keywords, containsSub kw (normText env) = false) →
      (webhook true sessions env).1 = BotAction.modeSelect hinglishStr
      ∧ (webhook true sessions env).2 (effUserId env) = some (some hinglishStr))
    ∧ ((normText env = ("hinglish").data ∨ normText env = ("hindi").data) →
      (webhook true sessions env).1 = BotAction.greeting
      ∧ (webhook true sessions env).2 (effUserId env) = some none) := by
  have hn : pyLower (pyStrip (normText env)) = normText env :=
    lowerStrip_fix (env.text.getD [])
  have hmode : ∀ c, is_greeting (normText env) = false →
      detect_language_choice (normText env) = some c →
      (webhook true sessions env).1 = BotAction.modeSelect c
      ∧ (webhook true sessions env).2 (effUserId env) = some (some c) := by
    intro c hg hd
    rw [webhook_mode_eq sessions env c hg hd]
    exact ⟨rfl, by simp⟩
  refine ⟨?_, ?_, ?_, ?_, ?_⟩
  · rintro (h | h) <;>
      exact hmode englishStr (by rw [h]; decide) (by rw [h]; decide)
  · intro hg hc
    exact hmode englishStr hg (detect_english_contains (normText env) hn hc)
  · intro h
    exact hmode hinglishStr (by rw [h]; decide) (by rw [h]; decide)
  · intro hg hc hk
    exact hmode hinglishStr hg (detect_hinglish_contains (normText env) hn hc hk)
  · intro h
    have hg : is_greeting (normText env) = true := by
      rcases h with h | h <;> rw [h] <;> decide
    rw [webhook_greeting_eq sessions env hg]
    exact ⟨rfl, by simp⟩

/-- Witness for C1 amended: the message ok go with option 1 (not a
greeting, contains option 1) selects and stores english mode. -/
theorem claimC1_witness :
    (webhook true emptySessions ⟨none, some (("ok go with option 1").data)⟩).1
      = BotAction.modeSelect englishStr
    ∧ (webhook true emptySessions ⟨none, some (("ok go with option 1").data)⟩).2
        (effUserId ⟨none, some (("ok go with option 1").data)⟩)
      = some (some englishStr) :=
  (claimC1_amended emptySessions ⟨none, some (("ok go with option 1").data)⟩).2.1
    (by decide) (Or.inl (by decide))

theorem pyLower_append (x y : Str) : pyLower (x ++ y) = pyLower x ++ pyLower y :=
  List.map_append pyToLower x y

theorem pyStrip_fixed_append (m a : Str) (hm : m ≠ [])
    (h1 : lstrip pyIsSpace m = m) (h2 : rstrip pyIsSpace m = m) :
    pyStrip (m ++ a) = m ++ rstrip pyIsSpace a :=
  stripP_fixed_append pyIsSpace m a hm h1 h2

theorem pyStrip_rstrip_eq (a : Str) : pyStrip (rstrip pyIsSpace a) = pyStrip a :=
  stripP_rstrip pyIsSpace a

theorem cleanup_strip (s : Str) :
    SimpyboAI.cleanupField (pyStrip s) = SimpyboAI.cleanupField s := by
  rw [SimpyboAI.cleanupField, SimpyboAI.cleanupField, pyStrip_pyStrip]

theorem strip_ne_of_cleanup (s : Str) (h : SimpyboAI.cleanupField s ≠ []) :
    pyStrip s ≠ [] := by
  intro he
  apply h
  rw [SimpyboAI.cleanupField, he]
  rfl

theorem dataSM :
    ("Simple Meaning:").data
      = ['S', 'i', 'm', 'p', 'l', 'e', ' ', 'M', 'e', 'a', 'n', 'i', 'n', 'g', ':'] := rfl

theorem dataSMlow :
    ("simple meaning:").data
      = ['s', 'i', 'm', 'p', 'l', 'e', ' ', 'm', 'e', 'a', 'n', 'i', 'n', 'g', ':'] := rfl

theorem dataEX : ("Example:").data = ['E', 'x', 'a', 'm', 'p', 'l', 'e', ':'] := rfl

theorem dataEXlow : ("example:").data = ['e', 'x', 'a', 'm', 'p', 'l', 'e', ':'] := rfl

theorem dataFF : ("Full Form:").data = ['F', 'u', 'l', 'l', ' ', 'F', 'o', 'r', 'm', ':'] := rfl

theorem dataFFlow : ("full form:").data = ['f', 'u', 'l', 'l', ' ', 'f', 'o', 'r', 'm', ':'] := rfl

theorem dataNA : ("n/a").data = ['n', '/', 'a'] := rfl

theorem parseStep_smLine (r : ParsedFields) (f : Option FieldTag) (a : Str)
    (hpa : pyStrip a ≠ []) :
    SimpyboAI.parseStep (r, f) ((("Simple Meaning:").data) ++ a)
      = ({ r with simple_meaning := pyStrip a }, some FieldTag.sm) := by
  have hstrip : pyStrip ((("Simple Meaning:").data) ++ a)
      = (("Simple Meaning:").data) ++ rstrip pyIsSpace a :=
    pyStrip_fixed_append _ a (by decide) (by decide) (by decide)
  have hlow : pyLower ((("Simple Meaning:").data) ++ rstrip pyIsSpace a)
      = (("simple meaning:").data) ++ pyLower (rstrip pyIsSpace a) := by
    rw [pyLower_append]
    rfl
  have hcol : afterFirstColon ((("Simple Meaning:").data) ++ rstrip pyIsSpace a)
      = rstrip pyIsSpace a :=
    afterFirstColon_marker _ _ (by decide)
  simp only [SimpyboAI.parseStep]
  rw [← dataSM, ← dataSMlow, hstrip, hlow, hcol, containsSub_self_append,
    pyStrip_rstrip_eq]
  simp [hpa]

theorem parseStep_exLine (r : ParsedFields) (f : Option FieldTag) (b : Str)
    (hpb : pyStrip b ≠ [])
    (hmb : containsSub ((("simple meaning:").data))
        (pyLower (pyStrip ((("Example:").data) ++ b))) = false) :
    SimpyboAI.parseStep (r, f) ((("Example:").data) ++ b)
      = ({ r with example_ := pyStrip b }, some FieldTag.ex) := by
  have hstrip : pyStrip ((("Example:").data) ++ b)
      = (("Example:").data) ++ rstrip pyIsSpace b :=
    pyStrip_fixed_append _ b (by decide) (by decide) (by decide)
  have hlow : pyLower ((("Example:").data) ++ rstrip pyIsSpace b)
      = (("example:").data) ++ pyLower (rstrip pyIsSpace b) := by
    rw [pyLower_append]
    rfl
  have hcol : afterFirstColon ((("Example:").data) ++ rstrip pyIsSpace b)
      = rstrip pyIsSpace b :=
    afterFirstColon_marker _ _ (by decide)
  rw [hstrip, hlow] at hmb
  simp only [SimpyboAI.parseStep]
  rw [← dataEX, ← dataSMlow, ← dataEXlow, hstrip, hlow, hmb, containsSub_self_append,
    hcol, pyStrip_rstrip_eq]
  simp [hpb]

theorem parseStep_ffLine (r : ParsedFields) (f : Option FieldTag) (cc : Str)
    (hpc : pyStrip cc ≠ [])
    (hm1 : containsSub ((("simple meaning:").data))
        (pyLower (pyStrip ((("Full Form:").data) ++ cc))) = false)
    (hm2 : containsSub ((("example:").data))
        (pyLower (pyStrip ((("Full Form:").data) ++ cc))) = false)
    (hnac : pyLower (pyStrip cc) ≠ ("n/a").data) :
    SimpyboAI.parseStep (r, f) ((("Full Form:").data) ++ cc)
      = ({ r with full_form := pyStrip cc }, some FieldTag.ff) := by
  have hstrip : pyStrip ((("Full Form:").data) ++ cc)
      = (("Full Form:").data) ++ rstrip pyIsSpace cc :=
    pyStrip_fixed_append _ cc (by decide) (by decide) (by decide)
  have hlow : pyLower ((("Full Form:").data) ++ rstrip pyIsSpace cc)
      = (("full form:").data) ++ pyLower (rstrip pyIsSpace cc) := by
    rw [pyLower_append]
    rfl
  have hcol : afterFirstColon ((("Full Form:").data) ++ rstrip pyIsSpace cc)
      = rstrip pyIsSpace cc :=
    afterFirstColon_marker _ _ (by decide)
  rw [hstrip, hlow] at hm1 hm2
  simp only [SimpyboAI.parseStep]
  rw [← dataFF, ← dataSMlow, ← dataEXlow, ← dataFFlow, ← dataNA, hstrip, hlow, hm1,
    hm2, containsSub_self_append, hcol, pyStrip_rstrip_eq]
  simp [hpc, hnac]

theorem parse_response_via (text : Str) (st : ParsedFields × Option FieldTag)
    (h : List.foldl SimpyboAI.parseStep ((⟨[], [], []⟩ : ParsedFields), none)
        (splitNl text) = st) :
    SimpyboAI._parse_response text = SimpyboAI.finalize text st.1 := by
  unfold SimpyboAI._parse_response
  rw [h]

/-- C3: a reply text consisting of exactly the three marker lines in order
(Simple Meaning, Example, Full Form), where the continuation text of each
marker line contains no newline, each marker occurs only on its own line
(the later lines do not contain an earlier marker), each value is
non-empty after the final cleanup, and the full-form value is not the
literal n/a, parses into exactly the three fields, each equal to the text
following its marker colon trimmed of surrounding whitespace and asterisk
characters, and all three fields are non-empty. -/
theorem claimC3 (a b cc : Str)
    (hna : '\n' ∉ a) (hnb : '\n' ∉ b) (hnc : '\n' ∉ cc)
    (ha : SimpyboAI.cleanupField a ≠ [])
    (hb : SimpyboAI.cleanupField b ≠ [])
    (hc : SimpyboAI.cleanupField cc ≠ [])
    (hmb : containsSub ((("simple meaning:").data))
        (pyLower (pyStrip ((("Example:").data) ++ b))) = false)
    (hm1 : containsSub ((("simple meaning:").data))
        (pyLower (pyStrip ((("Full Form:").data) ++ cc))) = false)
    (hm2 : containsSub ((("example:").data))
        (pyLower (pyStrip ((("Full Form:").data) ++ cc))) = false)
    (hnac : pyLower (pyStrip cc) ≠ ("n/a").data) :
    SimpyboAI._parse_response
        (((("Simple Meaning:").data) ++ a) ++ '\n'
          :: (((("Example:").data) ++ b) ++ '\n' :: ((("Full Form:").data) ++ cc)))
      = ⟨SimpyboAI.cleanupField a, SimpyboAI.cleanupField b, SimpyboAI.cleanupField cc⟩
    ∧ SimpyboAI.cleanupField a ≠ []
    ∧ SimpyboAI.cleanupField b ≠ []
    ∧ SimpyboAI.cleanupField cc ≠ [] := by
  have hpa : pyStrip a ≠ [] := strip_ne_of_cleanup a ha
  have hpb : pyStrip b ≠ [] := strip_ne_of_cleanup b hb
  have hpc : pyStrip cc ≠ [] := strip_ne_of_cleanup cc hc
  have hx1 : '\n' ∉ (("Simple Meaning:").data) ++ a := by
    intro h
    rcases List.mem_append.mp h with h | h
    · exact absurd h (by decide)
    · exact hna h
  have hx2 : '\n' ∉ (("Example:").data) ++ b := by
    intro h
    rcases List.mem_append.mp h with h | h
    · exact absurd h (by decide)
    · exact hnb h
  have hx3 : '\n' ∉ (("Full Form:").data) ++ cc := by
    intro h
    rcases List.mem_append.mp h with h | h
    · exact absurd h (by decide)
    · exact hnc h
  have hsplit : splitNl
      (((("Simple Meaning:").data) ++ a) ++ '\n'
        :: (((("Example:").data) ++ b) ++ '\n' :: ((("Full Form:").data) ++ cc)))
      = [(("Simple Meaning:").data) ++ a, (("Example:").data) ++ b,
         (("Full Form:").data) ++ cc] := by
    rw [splitNl_append_nl _ _ hx1, splitNl_append_nl _ _ hx2, splitNl_no_nl _ hx3]
  have hfold : List.foldl SimpyboAI.parseStep ((⟨[], [], []⟩ : ParsedFields), none)
      [(("Simple Meaning:").data) ++ a, (("Example:").data) ++ b,
       (("Full Form:").data) ++ cc]
      = ((⟨pyStrip a, pyStrip b, pyStrip cc⟩ : ParsedFields), some FieldTag.ff) := by
    rw [List.foldl_cons, parseStep_smLine _ _ a hpa,
      List.foldl_cons, parseStep_exLine _ _ b hpb hmb,
      List.foldl_cons, parseStep_ffLine _ _ cc hpc hm1 hm2 hnac,
      List.foldl_nil]
  refine ⟨?_, ha, hb, hc⟩
  have hfold2 : List.foldl SimpyboAI.parseStep ((⟨[], [], []⟩ : ParsedFields), none)
      (splitNl (((("Simple Meaning:").data) ++ a) ++ '\n'
        :: (((("Example:").data) ++ b) ++ '\n' :: ((("Full Form:").data) ++ cc))))
      = ((⟨pyStrip a, pyStrip b, pyStrip cc⟩ : ParsedFields), some FieldTag.ff) := by
    rw [hsplit]
    exact hfold
  rw [parse_response_via _ _ hfold2]
  simp only [SimpyboAI.finalize, cleanup_strip]
  rw [if_neg ha]

/-- Witness for C3 at a concrete three-marker reply with whitespace and
asterisk decoration around the values. -/
theorem claimC3_witness :
    SimpyboAI._parse_response
        (((("Simple Meaning:").data) ++ (" **steps to follow** ").data) ++ '\n'
          :: (((("Example:").data) ++ (" a recipe ").data) ++ '\n'
            :: ((("Full Form:").data) ++ (" Cash On Delivery ").data)))
      = ⟨SimpyboAI.cleanupField ((" **steps to follow** ").data),
         SimpyboAI.cleanupField ((" a recipe ").data),
         SimpyboAI.cleanupField ((" Cash On Delivery ").data)⟩
    ∧ SimpyboAI.cleanupField ((" **steps to follow** ").data) ≠ []
    ∧ SimpyboAI.cleanupField ((" a recipe ").data) ≠ []
    ∧ SimpyboAI.cleanupField ((" Cash On Delivery ").data) ≠ [] :=
  claimC3 ((" **steps to follow** ").data) ((" a recipe ").data)
    ((" Cash On Delivery ").data) (by decide) (by decide) (by decide) (by decide)
    (by decide) (by decide) (by decide) (by decide) (by decide) (by decide)
